import Mathlib

/-!
Shallow embedding of the `demo-realtime` neurofeedback core:

* `src/demo_realtime/feedbacks/double_spinning_wheel.py` — the
  `DoubleSpinningWheel` actuator handle: the two shared cells
  (`_speed`, `_status`), `start`, `stop`, the `speed` setter and the
  `active` and `image` properties.
* `src/demo_realtime/nfb_double_spinning_wheel.py` — the control loop
  `nfb_double_spinning_wheel`: the 100-slot calibration ring buffer
  (`metrics`, `inc`), the warm-up gating, the percentile range, the
  clip-normalize-truncate feedback computation and the teardown.

Machine floats of the source are embedded as `ℚ`; Python `int()` is
truncation toward zero; a raised exception is `Except.error`.
-/

/-- The two cross-process cells owned by the `DoubleSpinningWheel` handle:
`_speed` (`Value("i", 0)`) and `_status` (`Value("i", 0)`). -/
structure ActState where
  status : ℤ
  speed : ℤ
  deriving Repr, DecidableEq

/-- The handle right after `DoubleSpinningWheel.__init__`: both cells are 0. -/
def actInit : ActState := { status := 0, speed := 0 }

/-- `DoubleSpinningWheel.start`: raise if `_status.value == 1`, else set
`_status.value = 1` (then spawn the process, which owns no cell). -/
def actStart (a : ActState) : Except String ActState :=
  if a.status = 1 then Except.error "The feedback is already started."
  else Except.ok { a with status := 1 }

/-- `DoubleSpinningWheel.stop`: raise if `_status.value == 0`, else set
`_status.value = 0` (then join the process with a 5 s timeout). -/
def actStop (a : ActState) : Except String ActState :=
  if a.status = 0 then Except.error "The feedback is already stopped."
  else Except.ok { a with status := 0 }

/-- `DoubleSpinningWheel.active`: `bool(self._status.value)`. -/
def actActive (a : ActState) : Bool := a.status ≠ 0

/-- Python `int()` on a rational: truncation toward zero. -/
def truncToInt (q : ℚ) : ℤ := if q < 0 then ⌈q⌉ else ⌊q⌋

/-- A Python float is representable as an integer (`v == int(v)`). -/
def isIntegral (v : ℚ) : Bool := v.den = 1

/-- The `DoubleSpinningWheel.speed` setter: `assert speed == int(speed)`,
then write the `_speed` cell under its lock. No check of `_status`. -/
def setSpeed (a : ActState) (v : ℚ) : Except String ActState :=
  if isIntegral v then Except.ok { a with speed := v.num }
  else Except.error "The provided speed must be an integer."

/-- The calibration window of `nfb_double_spinning_wheel`:
`metrics = np.ones(100) * np.nan` (a 100-slot array, unfilled slots
modelled as `none`) and the append counter `inc`. -/
structure RingState where
  buf : Fin 100 → Option ℚ
  count : ℕ

/-- `metrics` full of NaN, `inc = 0`. -/
def ringInit : RingState := { buf := fun _ => none, count := 0 }

/-- One append: `metrics[inc % 100] = metric; inc += 1`. -/
def ringAppend (s : RingState) (x : ℚ) : RingState :=
  { buf := fun i => if (i : ℕ) = s.count % 100 then some x else s.buf i
    count := s.count + 1 }

/-- The buffer-full test `inc >= metrics.size` gating the feedback range. -/
def isFull (s : RingState) : Bool := 100 ≤ s.count

/-- The state of `metrics`/`inc` after a sequence of appends. -/
def runRing (xs : List ℚ) : RingState := xs.foldl ringAppend ringInit

theorem runRing_concat (xs : List ℚ) (x : ℚ) :
    runRing (xs ++ [x]) = ringAppend (runRing xs) x :=
  List.foldl_concat ringAppend ringInit x xs

theorem runRing_count (xs : List ℚ) : (runRing xs).count = xs.length := by
  induction xs using List.reverseRecOn with
  | nil => rfl
  | append_singleton xs x ih =>
      rw [runRing_concat]
      simp [ringAppend, ih]

theorem runRing_buf_recent (xs : List ℚ) (j : ℕ) (hj : j < xs.length)
    (hrecent : xs.length ≤ j + 100) :
    (runRing xs).buf ⟨j % 100, Nat.mod_lt _ (by norm_num)⟩ =
      some (xs.get ⟨j, hj⟩) := by
  induction xs using List.reverseRecOn with
  | nil => exact absurd hj (by simp)
  | append_singleton xs x ih =>
      rw [runRing_concat]
      have hlen : (xs ++ [x]).length = xs.length + 1 := by simp
      rcases Nat.lt_or_ge j xs.length with hlt | hge
      · -- an older element: the new write lands in a different slot
        have hrec : xs.length ≤ j + 100 := by omega
        have hne : j % 100 ≠ xs.length % 100 := by omega
        have hold := ih hlt hrec
        simp only [ringAppend]
        rw [if_neg (by simpa [runRing_count] using hne)]
        rw [hold]
        congr 1
        simp [List.get_eq_getElem, List.getElem_append_left, hlt]
      · -- the element just appended
        have hj' : j = xs.length := by omega
        subst hj'
        simp only [ringAppend, runRing_count]
        rw [if_pos trivial]
        congr 1
        simp [List.get_eq_getElem]

/-- The ascending sort of the stored metrics, as used by `np.percentile`. -/
def sortedMetrics (xs : List ℚ) : List ℚ := xs.mergeSort fun a b => decide (a ≤ b)

theorem sortedMetrics_sorted (xs : List ℚ) : (sortedMetrics xs).Sorted (· ≤ ·) := by
  have h := @List.sorted_mergeSort ℚ (fun a b => decide (a ≤ b))
    (by intro a b c hab hbc; simp only [decide_eq_true_eq] at *; exact le_trans hab hbc)
    (by intro a b; simpa using le_total a b) xs
  exact h.imp (by simp)

theorem sortedMetrics_length (xs : List ℚ) :
    (sortedMetrics xs).length = xs.length := List.length_mergeSort xs

theorem sortedMetrics_perm (xs : List ℚ) : (sortedMetrics xs).Perm xs :=
  List.mergeSort_perm xs _

/-- Linear interpolation into a sorted list at fractional rank `idx`
(`numpy`'s default `linear` method). -/
def interpAt (s : List ℚ) (idx : ℚ) : ℚ :=
  let i := (⌊idx⌋).toNat
  let lo := s.getD i 0
  let hi := s.getD (i + 1) lo
  lo + (idx - ⌊idx⌋) * (hi - lo)

/-- `np.percentile(xs, q)` with the default linear interpolation:
rank `q / 100 * (n - 1)` into the ascending sort of `xs`. -/
def percentile (xs : List ℚ) (q : ℚ) : ℚ :=
  interpAt (sortedMetrics xs) (q / 100 * ((xs.length : ℚ) - 1))

theorem interpAt_eq (s : List ℚ) (idx : ℚ) (i : ℕ) (h1 : ⌊idx⌋ = (i : ℤ))
    (h2 : i + 1 < s.length) :
    interpAt s idx =
      s.get ⟨i, by omega⟩ +
        (idx - (i : ℚ)) * (s.get ⟨i + 1, h2⟩ - s.get ⟨i, by omega⟩) := by
  simp only [interpAt, h1, Int.toNat_natCast]
  rw [List.getD_eq_getElem _ _ (show i < s.length by omega)]
  rw [List.getD_eq_getElem _ _ h2]
  simp [List.get_eq_getElem]

/-- `np.clip(x, lo, hi)`. -/
def pyClip (x lo hi : ℚ) : ℚ := min (max x lo) hi

/-- The Active-state feedback computation of the control loop:
`int(np.clip((metric - min_) / (max_ - min_), 0, 1) * 100)`. -/
def activeSpeed (m lo hi : ℚ) : ℤ :=
  truncToInt (pyClip ((m - lo) / (hi - lo)) 0 1 * 100)

/-- The stored metric values of the calibration window, read out slot by
slot (unfilled slots read as 0; the loop only reads a full buffer). -/
def bufList (s : RingState) : List ℚ :=
  (List.finRange 100).map fun i => (s.buf i).getD 0

/-- State of one run of the `nfb_double_spinning_wheel` main loop:
the calibration window, the actuator handle cells, the (1-based)
iteration indices at which `feedback.start()` was invoked, and a
pending raised exception (`none` while no call has raised). -/
structure SessState where
  ring : RingState
  act : ActState
  startIters : List ℕ
  err : Option String

def sessInit : SessState :=
  { ring := ringInit, act := actInit, startIters := [], err := none }

/-- One iteration of the main loop on the metric `m` of that window:
append `m` at `inc % 100`; if `inc < 100` skip (after resetting the
session clock, modelled separately in `LoopClock`); if `inc == 100`
call `feedback.start()`; from `inc >= 100` on, compute the 5th/95th
percentile range and push the clipped, truncated feedback speed. -/
def loopStep (s : SessState) (m : ℚ) : SessState :=
  match s.err with
  | some _ => s
  | none =>
    let ring := ringAppend s.ring m
    if ring.count < 100 then { s with ring := ring }
    else
      let stored := bufList ring
      let lo := percentile stored 5
      let hi := percentile stored 95
      if ring.count = 100 then
        match actStart s.act with
        | Except.error e =>
            { s with
              ring := ring
              startIters := s.startIters ++ [ring.count]
              err := some e }
        | Except.ok a =>
            { ring := ring
              act := { a with speed := activeSpeed m lo hi }
              startIters := s.startIters ++ [ring.count]
              err := none }
      else
        { s with
          ring := ring
          act := { s.act with speed := activeSpeed m lo hi } }

/-- The main loop run on the per-iteration metric values `xs`. -/
def runSession (xs : List ℚ) : SessState := xs.foldl loopStep sessInit

/-- The teardown after the loop: the unconditional `feedback.stop()`. -/
def teardown (s : SessState) : Except String ActState := actStop s.act

/-- The session clock of the main loop: `inc` and the reference time
`start`, advanced by the wall-clock duration of each iteration.
`start` is reset to the current time at the end of every warm-up
iteration (`inc < 100` after the append); the `while` condition
compares `now - start` against the configured duration. -/
structure LoopClock where
  inc : ℕ
  start : ℚ
  now : ℚ

def clockInit (t0 : ℚ) : LoopClock := { inc := 0, start := t0, now := t0 }

/-- One loop iteration taking wall-clock time `d`. -/
def clockStep (s : LoopClock) (d : ℚ) : LoopClock :=
  let now := s.now + d
  let inc := s.inc + 1
  { inc := inc, now := now, start := if inc < 100 then now else s.start }

/-- The clock after iterations of durations `ds`, entered at time `t0`. -/
def runClock (t0 : ℚ) (ds : List ℚ) : LoopClock :=
  ds.foldl clockStep (clockInit t0)

theorem floor_rank5 : ⌊(5 : ℚ) / 100 * (99 : ℚ)⌋ = (4 : ℤ) := by
  norm_num [Int.floor_eq_iff]

theorem floor_rank95 : ⌊(95 : ℚ) / 100 * (99 : ℚ)⌋ = (94 : ℤ) := by
  norm_num [Int.floor_eq_iff]

theorem percentile_rank (xs : List ℚ) (hlen : xs.length = 100) (q : ℚ) :
    percentile xs q = interpAt (sortedMetrics xs) (q / 100 * (99 : ℚ)) := by
  unfold percentile
  rw [hlen]
  norm_num

theorem sortedMetrics_const (xs : List ℚ) (v : ℚ) (hv : ∀ b ∈ xs, b = v) :
    sortedMetrics xs = List.replicate xs.length v := by
  rw [List.eq_replicate_iff]
  exact ⟨sortedMetrics_length xs,
    fun b hb => hv b ((sortedMetrics_perm xs).mem_iff.mp hb)⟩

theorem percentile_const (xs : List ℚ) (v : ℚ) (hlen : xs.length = 100)
    (hv : ∀ b ∈ xs, b = v) :
    percentile xs 5 = v ∧ percentile xs 95 = v := by
  have hs := sortedMetrics_const xs v hv
  rw [hlen] at hs
  have hl : (List.replicate 100 v).length = 100 := by simp
  constructor
  · rw [percentile_rank xs hlen 5, hs,
      interpAt_eq _ _ 4 floor_rank5 (by simp)]
    simp only [List.get_eq_getElem, List.getElem_replicate]
    ring
  · rw [percentile_rank xs hlen 95, hs,
      interpAt_eq _ _ 94 floor_rank95 (by simp)]
    simp only [List.get_eq_getElem, List.getElem_replicate]
    ring

theorem runSession_concat (xs : List ℚ) (x : ℚ) :
    runSession (xs ++ [x]) = loopStep (runSession xs) x :=
  List.foldl_concat loopStep sessInit x xs

theorem sessionInvariant (xs : List ℚ) :
    (runSession xs).err = none ∧
    (runSession xs).ring = runRing xs ∧
    (runSession xs).act.status = (if 100 ≤ xs.length then 1 else 0) ∧
    (runSession xs).startIters = (if 100 ≤ xs.length then [100] else []) := by
  induction xs using List.reverseRecOn with
  | nil =>
      refine ⟨rfl, rfl, ?_, ?_⟩ <;> simp [runSession, sessInit, actInit]
  | append_singleton xs x ih =>
      obtain ⟨he, hr, hst, hsi⟩ := ih
      rw [runSession_concat, runRing_concat]
      have hcount : (ringAppend (runSession xs).ring x).count = xs.length + 1 := by
        rw [hr]
        simp [ringAppend, runRing_count]
      have hlen : (xs ++ [x]).length = xs.length + 1 := by simp
      simp only [loopStep, he]
      rcases Nat.lt_trichotomy (xs.length + 1) 100 with hlt | heq | hgt
      · rw [if_pos (by omega)]
        have h1 : ¬ (100 ≤ xs.length) := by omega
        have h2 : ¬ (100 ≤ xs.length + 1) := by omega
        refine ⟨rfl, by rw [hr], ?_, ?_⟩
        · show (runSession xs).act.status = _
          rw [hst]
          simp [hlen, h1, h2]
        · show (runSession xs).startIters = _
          rw [hsi]
          simp [hlen, h1, h2]
      · rw [if_neg (by omega)]
        rw [if_pos (by omega)]
        have h1 : ¬ (100 ≤ xs.length) := by omega
        have hst0 : (runSession xs).act.status = 0 := by simp [hst, h1]
        simp only [actStart, hst0]
        rw [if_neg (by norm_num)]
        refine ⟨rfl, by rw [hr], ?_, ?_⟩
        · show (1 : ℤ) = _
          simp [hlen]
          omega
        · show (runSession xs).startIters ++
            [(ringAppend (runSession xs).ring x).count] = _
          rw [hsi, hcount]
          simp [hlen, h1, heq]
      · rw [if_neg (by omega)]
        rw [if_neg (by omega)]
        have h1 : 100 ≤ xs.length := by omega
        have h2 : 100 ≤ xs.length + 1 := by omega
        refine ⟨rfl, by rw [hr], ?_, ?_⟩
        · show (runSession xs).act.status = _
          rw [hst]
          simp [hlen, h1, h2]
        · show (runSession xs).startIters = _
          rw [hsi]
          simp [hlen, h1, h2]

theorem bufList_replicate (v : ℚ) :
    bufList (runRing (List.replicate 100 v)) = List.replicate 100 v := by
  rw [List.eq_replicate_iff]
  constructor
  · simp [bufList]
  · intro b hb
    simp only [bufList, List.mem_map] at hb
    obtain ⟨i, -, hib⟩ := hb
    have hlt : i.val < (List.replicate 100 v).length := by simp [i.isLt]
    have h := runRing_buf_recent (List.replicate 100 v) i.val hlt (by simp)
    have hfin : (⟨i.val % 100, Nat.mod_lt _ (by norm_num)⟩ : Fin 100) = i :=
      Fin.ext (Nat.mod_eq_of_lt i.isLt)
    rw [hfin] at h
    have hv : (List.replicate 100 v).get ⟨i.val, hlt⟩ = v := by
      simp only [List.get_eq_getElem, List.getElem_replicate]
    rw [hv] at h
    rw [← hib, h]
    rfl

theorem replicate_hundred_split (v : ℚ) :
    List.replicate 100 v = List.replicate 99 v ++ [v] :=
  List.replicate_succ' 99 v

theorem runSession_replicate_speed (v : ℚ) :
    (runSession (List.replicate 100 v)).act.speed =
      activeSpeed v (percentile (List.replicate 100 v) 5)
        (percentile (List.replicate 100 v) 95) := by
  obtain ⟨he, hr, hst, hsi⟩ := sessionInvariant (List.replicate 99 v)
  have hb : ringAppend (runSession (List.replicate 99 v)).ring v =
      runRing (List.replicate 100 v) := by
    rw [hr, ← runRing_concat, ← replicate_hundred_split]
  have hcount : (ringAppend (runSession (List.replicate 99 v)).ring v).count = 100 := by
    rw [hb, runRing_count]
    simp
  rw [replicate_hundred_split, runSession_concat]
  simp only [loopStep, he]
  rw [if_neg (by omega), if_pos hcount]
  have hst0 : (runSession (List.replicate 99 v)).act.status = 0 := by
    rw [hst]
    simp
  simp only [actStart, hst0]
  rw [if_neg (by norm_num)]
  show activeSpeed v _ _ = _
  rw [hb, bufList_replicate, ← replicate_hundred_split]

theorem runClock_concat (t0 : ℚ) (ds : List ℚ) (d : ℚ) :
    runClock t0 (ds ++ [d]) = clockStep (runClock t0 ds) d :=
  List.foldl_concat clockStep (clockInit t0) d ds

theorem clockInvariant (t0 : ℚ) (ds : List ℚ) :
    (runClock t0 ds).inc = ds.length ∧
    (runClock t0 ds).now = t0 + ds.sum ∧
    (runClock t0 ds).start = t0 + (ds.take 99).sum := by
  induction ds using List.reverseRecOn with
  | nil =>
      refine ⟨rfl, by simp [runClock, clockInit], by simp [runClock, clockInit]⟩
  | append_singleton ds d ih =>
      obtain ⟨hi, hn, hs⟩ := ih
      rw [runClock_concat]
      simp only [clockStep, hi, hn, hs]
      refine ⟨by simp, ?_, ?_⟩
      · show t0 + ds.sum + d = _
        simp [List.sum_append]
        ring
      · rcases Nat.lt_or_ge (ds.length + 1) 100 with hlt | hge
        · show (if ds.length + 1 < 100 then t0 + ds.sum + d else t0 + (ds.take 99).sum) = _
          rw [if_pos hlt]
          rw [List.take_of_length_le (by simp; omega)]
          simp [List.sum_append]
          ring
        · show (if ds.length + 1 < 100 then t0 + ds.sum + d else t0 + (ds.take 99).sum) = _
          rw [if_neg (by omega)]
          rw [List.take_append_of_le_length (by omega)]

/-- Attribute names set on a `DoubleSpinningWheel` instance by
`__init__` (the only code that creates instance attributes). -/
def initAttrNames : List String :=
  ["_winkwargs", "_image", "_size", "_offset", "_speed", "_status", "_process"]

/-- Python attribute read: `AttributeError` when the name is absent. -/
def pyGetattr (attrs : List String) (name : String) : Except String String :=
  if name ∈ attrs then Except.ok name
  else Except.error (String.append "AttributeError: " name)

/-- The `DoubleSpinningWheel.image` property getter: `return self._iamge`. -/
def imageGetter (attrs : List String) : Except String String :=
  pyGetattr attrs "_iamge"

/-- Claim C1: in every run of the control loop no call raises, and
`feedback.start()` is invoked exactly once, precisely at the iteration
appending the 100th metric sample — at no iteration of a shorter run,
and never a second time in a longer one. -/
theorem claim1_start_exactly_at_fill (xs : List ℚ) :
    (runSession xs).err = none ∧
    (runSession xs).startIters = (if 100 ≤ xs.length then [100] else []) :=
  ⟨(sessionInvariant xs).1, (sessionInvariant xs).2.2.2⟩

/-- Claim C2: for every sequence of appends, the buffer is full iff at
least 100 values were appended; each append writes at `count mod 100`
and increments `count`; and after the appends every one of the 100 most
recent values sits in the buffer at its `index mod 100` slot. -/
theorem claim2_ring_buffer (xs : List ℚ) :
    (runRing xs).count = xs.length ∧
    (isFull (runRing xs) = true ↔ 100 ≤ xs.length) ∧
    (∀ s : RingState, ∀ x : ℚ,
      (ringAppend s x).count = s.count + 1 ∧
      (ringAppend s x).buf ⟨s.count % 100, Nat.mod_lt _ (by norm_num)⟩ = some x) ∧
    (∀ j : ℕ, ∀ hj : j < xs.length, xs.length ≤ j + 100 →
      (runRing xs).buf ⟨j % 100, Nat.mod_lt _ (by norm_num)⟩ =
        some (xs.get ⟨j, hj⟩)) := by
  refine ⟨runRing_count xs, ?_, ?_, runRing_buf_recent xs⟩
  · simp [isFull, runRing_count]
  · intro s x
    exact ⟨rfl, by simp [ringAppend]⟩

theorem claim2_ring_buffer_witness :
    5 < (List.replicate 101 (0:ℚ)).length ∧
    (List.replicate 101 (0:ℚ)).length ≤ 5 + 100 ∧
    (runRing (List.replicate 101 (0:ℚ))).buf ⟨5 % 100, by norm_num⟩ =
      some ((List.replicate 101 (0:ℚ)).get ⟨5, by simp⟩) :=
  ⟨by simp, by simp, (claim2_ring_buffer _).2.2.2 5 (by simp) (by simp)⟩

/-- Claim C3: for every metric `m` and range with `lo < hi`, the
Active-state feedback pushed to the actuator is the clipped, scaled,
truncated value, and it lies in `[0, 100]`. -/
theorem claim3_feedback_bounds (m lo hi : ℚ) (_hrange : lo < hi) :
    activeSpeed m lo hi = truncToInt (pyClip ((m - lo) / (hi - lo)) 0 1 * 100) ∧
    0 ≤ activeSpeed m lo hi ∧ activeSpeed m lo hi ≤ 100 := by
  have h0 : (0:ℚ) ≤ pyClip ((m - lo) / (hi - lo)) 0 1 :=
    le_min (le_max_right _ _) (by norm_num)
  have h1 : pyClip ((m - lo) / (hi - lo)) 0 1 ≤ 1 := min_le_right _ _
  have h0c : (0:ℚ) ≤ pyClip ((m - lo) / (hi - lo)) 0 1 * 100 :=
    mul_nonneg h0 (by norm_num)
  have h1c : pyClip ((m - lo) / (hi - lo)) 0 1 * 100 ≤ 100 := by nlinarith
  refine ⟨rfl, ?_, ?_⟩
  · unfold activeSpeed truncToInt
    rw [if_neg (not_lt.mpr h0c)]
    exact Int.floor_nonneg.mpr h0c
  · unfold activeSpeed truncToInt
    rw [if_neg (not_lt.mpr h0c)]
    calc ⌊pyClip ((m - lo) / (hi - lo)) 0 1 * 100⌋ ≤ ⌊(100:ℚ)⌋ :=
          Int.floor_le_floor h1c
      _ = 100 := by norm_num

theorem claim3_feedback_bounds_witness :
    (0:ℚ) < 2 ∧ 0 ≤ activeSpeed 1 0 2 ∧ activeSpeed 1 0 2 ≤ 100 :=
  ⟨by norm_num, (claim3_feedback_bounds 1 0 2 (by norm_num)).2.1,
    (claim3_feedback_bounds 1 0 2 (by norm_num)).2.2⟩

/-- Claim C4: `start()` raises iff the status cell reads 1, `stop()`
raises iff it reads 0, and after a successful start followed by a
successful stop the handle reports inactive. -/
theorem claim4_lifecycle_guards (a a1 a2 : ActState) :
    ((∃ e, actStart a = Except.error e) ↔ a.status = 1) ∧
    ((∃ e, actStop a = Except.error e) ↔ a.status = 0) ∧
    (actStart a = Except.ok a1 → actStop a1 = Except.ok a2 →
      actActive a2 = false) := by
  refine ⟨?_, ?_, ?_⟩
  · constructor
    · rintro ⟨e, he⟩
      by_contra hne
      rw [actStart, if_neg hne] at he
      cases he
    · intro h1
      exact ⟨_, by rw [actStart, if_pos h1]⟩
  · constructor
    · rintro ⟨e, he⟩
      by_contra hne
      rw [actStop, if_neg hne] at he
      cases he
    · intro h0
      exact ⟨_, by rw [actStop, if_pos h0]⟩
  · intro hs ht
    by_cases h : a.status = 1
    · rw [actStart, if_pos h] at hs
      cases hs
    · rw [actStart, if_neg h] at hs
      have ha1 : a1 = { a with status := 1 } := by
        cases hs
        rfl
      subst ha1
      rw [actStop, if_neg (by norm_num)] at ht
      have ha2 : a2 = { a with status := 0 } := by
        cases ht
        rfl
      subst ha2
      simp [actActive]

theorem claim4_lifecycle_guards_witness :
    actStart actInit = Except.ok { status := 1, speed := 0 } ∧
    actStop { status := 1, speed := 0 } = Except.ok { status := 0, speed := 0 } ∧
    actActive { status := 0, speed := 0 } = false :=
  ⟨rfl, rfl, (claim4_lifecycle_guards actInit ⟨1, 0⟩ ⟨0, 0⟩).2.2 rfl rfl⟩

/-- Claim C5: the loop's teardown is the unconditional `feedback.stop()`
on the final actuator state, and it raises exactly when the run had
fewer than 100 iterations — i.e. when the buffer never filled and
`start()` was never called. -/
theorem claim5_teardown_raises_iff_short (xs : List ℚ) :
    teardown (runSession xs) = actStop (runSession xs).act ∧
    ((∃ e, teardown (runSession xs) = Except.error e) ↔ xs.length < 100) := by
  refine ⟨rfl, ?_⟩
  obtain ⟨-, -, hst, -⟩ := sessionInvariant xs
  unfold teardown actStop
  rw [hst]
  rcases Nat.lt_or_ge xs.length 100 with hlt | hge
  · simp [Nat.not_le.mpr hlt, hlt]
  · simp [hge, Nat.not_lt.mpr hge]

/-- Claim C6: when the filled buffer holds 100 identical values the
5th/95th percentile range is degenerate (`hi - lo = 0`) and the loop's
pushed speed is computed by the very same unguarded formula with that
zero denominator — no special case intervenes. -/
theorem claim6_degenerate_range_unguarded (v : ℚ) :
    percentile (bufList (runSession (List.replicate 100 v)).ring) 95 -
      percentile (bufList (runSession (List.replicate 100 v)).ring) 5 = 0 ∧
    (runSession (List.replicate 100 v)).act.speed =
      truncToInt (pyClip
        ((v - percentile (bufList (runSession (List.replicate 100 v)).ring) 5) / 0)
        0 1 * 100) := by
  have hr := (sessionInvariant (List.replicate 100 v)).2.1
  have hv : ∀ b ∈ List.replicate 100 v, b = v := fun b hb =>
    List.eq_of_mem_replicate hb
  obtain ⟨h5, h95⟩ := percentile_const (List.replicate 100 v) v (by simp) hv
  have hbl : bufList (runSession (List.replicate 100 v)).ring =
      List.replicate 100 v := by
    rw [hr, bufList_replicate]
  constructor
  · rw [hbl, h5, h95]
    ring
  · rw [runSession_replicate_speed, hbl, h5, h95]
    unfold activeSpeed
    rw [sub_self]

/-- Claim C7: for every filled buffer (100 stored values) the 5th and
95th linear-interpolation percentiles satisfy `low ≤ high`, and if all
100 stored values are identical then `low = high`. -/
theorem claim7_percentile_monotone (xs : List ℚ) (hlen : xs.length = 100) :
    percentile xs 5 ≤ percentile xs 95 ∧
    (∀ v, (∀ b ∈ xs, b = v) → percentile xs 5 = percentile xs 95) := by
  constructor
  · have hsl : (sortedMetrics xs).length = 100 := by
      rw [sortedMetrics_length, hlen]
    have hsort := sortedMetrics_sorted xs
    rw [percentile_rank xs hlen 5, percentile_rank xs hlen 95]
    rw [interpAt_eq _ _ 4 floor_rank5 (by omega)]
    rw [interpAt_eq _ _ 94 floor_rank95 (by omega)]
    have h45 : (sortedMetrics xs).get ⟨4, by omega⟩ ≤
        (sortedMetrics xs).get ⟨5, by omega⟩ :=
      hsort.rel_get_of_lt (Fin.mk_lt_mk.mpr (by norm_num))
    have h594 : (sortedMetrics xs).get ⟨5, by omega⟩ ≤
        (sortedMetrics xs).get ⟨94, by omega⟩ :=
      hsort.rel_get_of_lt (Fin.mk_lt_mk.mpr (by norm_num))
    have h9495 : (sortedMetrics xs).get ⟨94, by omega⟩ ≤
        (sortedMetrics xs).get ⟨95, by omega⟩ :=
      hsort.rel_get_of_lt (Fin.mk_lt_mk.mpr (by norm_num))
    simp only [List.get_eq_getElem, Fin.val_mk] at h45 h594 h9495
    push_cast
    norm_num
    linarith
  · intro v hv
    obtain ⟨h5, h95⟩ := percentile_const xs v hlen hv
    rw [h5, h95]

theorem claim7_percentile_monotone_witness :
    (List.replicate 100 (0:ℚ)).length = 100 ∧
    percentile (List.replicate 100 (0:ℚ)) 5 ≤
      percentile (List.replicate 100 (0:ℚ)) 95 :=
  ⟨by simp, (claim7_percentile_monotone _ (by simp)).1⟩

/-- Claim C8: at every while-check during warm-up (fewer than 100
iterations run) the elapsed time `now - start` tested against the
configured duration is 0 — the session clock is held at its start
reading; once 99 iterations have run, `start` stays fixed at the end of
the last warm-up iteration, so the elapsed time thereafter is exactly
the total duration of the iterations from the buffer-filling one on:
warm-up never consumes the session budget. -/
theorem claim8_session_clock (t0 : ℚ) (ds : List ℚ) :
    (ds.length < 100 → (runClock t0 ds).now - (runClock t0 ds).start = 0) ∧
    (99 ≤ ds.length →
      (runClock t0 ds).start = t0 + (ds.take 99).sum ∧
      (runClock t0 ds).now - (runClock t0 ds).start = (ds.drop 99).sum) := by
  obtain ⟨hi, hn, hs⟩ := clockInvariant t0 ds
  constructor
  · intro h
    rw [hn, hs, List.take_of_length_le (by omega)]
    ring
  · intro h
    refine ⟨hs, ?_⟩
    rw [hn, hs]
    have hsum := List.sum_take_add_sum_drop ds 99
    linarith

theorem claim8_session_clock_witness :
    (List.replicate 50 (1:ℚ)).length < 100 ∧
    (runClock 0 (List.replicate 50 (1:ℚ))).now -
      (runClock 0 (List.replicate 50 (1:ℚ))).start = 0 ∧
    99 ≤ (List.replicate 100 (1:ℚ)).length ∧
    (runClock 0 (List.replicate 100 (1:ℚ))).now -
        (runClock 0 (List.replicate 100 (1:ℚ))).start =
      ((List.replicate 100 (1:ℚ)).drop 99).sum :=
  ⟨by simp, (claim8_session_clock 0 _).1 (by simp), by simp,
    ((claim8_session_clock 0 _).2 (by simp)).2⟩

/-- Claim C9: `setSpeed(v)` raises iff `v` is not representable as an
integer, and for every integral `v` it writes `v` into the speed cell
leaving the status cell — running or not — untouched. -/
theorem claim9_setSpeed_guard (a : ActState) (v : ℚ) :
    ((∃ e, setSpeed a v = Except.error e) ↔ ¬ ∃ k : ℤ, v = (k : ℚ)) ∧
    (∀ k : ℤ, v = (k : ℚ) → setSpeed a v = Except.ok { a with speed := k }) := by
  have hint : isIntegral v = true ↔ ∃ k : ℤ, v = (k : ℚ) := by
    unfold isIntegral
    simp only [decide_eq_true_eq]
    constructor
    · intro h
      exact ⟨v.num, ((Rat.den_eq_one_iff v).mp h).symm⟩
    · rintro ⟨k, rfl⟩
      exact Rat.den_intCast k
  constructor
  · constructor
    · rintro ⟨e, he⟩ hk
      rw [setSpeed, if_pos (hint.mpr hk)] at he
      cases he
    · intro hk
      refine ⟨"The provided speed must be an integer.", ?_⟩
      rw [setSpeed, if_neg]
      intro h
      exact hk (hint.mp h)
  · intro k hk
    subst hk
    rw [setSpeed, if_pos (hint.mpr ⟨k, rfl⟩)]
    simp [Rat.num_intCast]

theorem claim9_setSpeed_guard_witness :
    (7:ℚ) = ((7:ℤ) : ℚ) ∧
    setSpeed actInit 7 = Except.ok { status := 0, speed := 7 } :=
  ⟨by norm_num, (claim9_setSpeed_guard actInit 7).2 7 (by norm_num)⟩

/-- Claim C10: the `image` property reads the attribute `_iamge`, which
`__init__` never sets (it sets `_image`), so the getter raises an
attribute error on every successfully constructed handle and never
returns the stored wheel-image path. -/
theorem claim10_image_getter_raises :
    (∃ e, imageGetter initAttrNames = Except.error e) ∧
    "_image" ∈ initAttrNames ∧ "_iamge" ∉ initAttrNames := by
  refine ⟨⟨String.append "AttributeError: " "_iamge", ?_⟩, by decide, by decide⟩
  rw [imageGetter, pyGetattr, if_neg (by decide)]
